import Mathlib

/-!
Shallow embedding of the library-management program in
`src/exercises/src/project.py`, together with proofs of the specified
properties of its checkout/return ledger, ID generation, genre validation
and field-match search.

Python dictionaries (`Library.books`, `Library.borrowers`, and the
dictionary records handed to `search_items`) are modelled as association
lists `List (String × α)`: `dictFind` is dictionary lookup (`d[k]` /
`k in d`), and `dictSet` models the in-place mutation of the object stored
at a key.  File persistence (`save`/`load`) is I/O and is not part of any
claim; the mutating methods are embedded as functions returning the
`(bool result, new state)` pair.
-/

/-- Dictionary lookup: the value stored at key `k`, if present. -/
def dictFind {α : Type} : List (String × α) → String → Option α
  | [], _ => none
  | (k', v) :: rest, k => if k' = k then some v else dictFind rest k

/-- Model of mutating the entry stored at key `k` to `v` (the dictionary's
key set is unchanged; only the value at `k` is replaced). -/
def dictSet {α : Type} : List (String × α) → String → α → List (String × α)
  | [], _, _ => []
  | (k', w) :: rest, k, v =>
    (if k' = k then (k, v) else (k', w)) :: dictSet rest k v

/-- The `Book` class: `book_id`, `title`, `author`, `genre`, `available`. -/
structure Book where
  book_id : String
  title : String
  author : String
  genre : String
  available : Bool
deriving DecidableEq

/-- `Book.GENRES`: the fixed list of valid genres. -/
def Book.GENRES : List String :=
  ["Fiction", "Non-Fiction", "Science", "History", "Technology"]

/-- `Book.__init__`: validates the genre and raises `ValueError` (modelled
as `Except.error`) when it is not in `Book.GENRES`; otherwise stores the
fields unchanged. -/
def Book.init (book_id title author genre : String) (available : Bool) :
    Except String Book :=
  if genre ∈ Book.GENRES then
    Except.ok ⟨book_id, title, author, genre, available⟩
  else
    Except.error "Genre must be one of GENRES"

/-- The `Borrower` class: `borrower_id`, `name`, `email`, `borrowed_books`
(a Python list of book ids, in insertion order). -/
structure Borrower where
  borrower_id : String
  name : String
  email : String
  borrowed_books : List String
deriving DecidableEq

/-- `Borrower.MAX_BOOKS = 3`. -/
def Borrower.MAX_BOOKS : Nat := 3

/-- `Borrower.can_borrow`: true when the borrower holds fewer than
`MAX_BOOKS` books. -/
def Borrower.can_borrow (b : Borrower) : Bool :=
  b.borrowed_books.length < Borrower.MAX_BOOKS

/-- `Borrower.borrow_book`: appends the book id unless the borrower is at
the limit; returns the success flag and the updated borrower. -/
def Borrower.borrow_book (b : Borrower) (book_id : String) : Bool × Borrower :=
  if !b.can_borrow then (false, b)
  else (true, { b with borrowed_books := b.borrowed_books ++ [book_id] })

/-- `Borrower.return_book`: removes the first occurrence of the book id
(`list.remove`) when present; returns the success flag and the updated
borrower. -/
def Borrower.return_book (b : Borrower) (book_id : String) : Bool × Borrower :=
  if book_id ∈ b.borrowed_books then
    (true, { b with borrowed_books := b.borrowed_books.erase book_id })
  else (false, b)

/-- The `Library` class state: its name and the two dictionaries
`books : book_id -> Book` and `borrowers : borrower_id -> Borrower`.
The JSON file paths are I/O configuration and carry no ledger state. -/
structure Library where
  name : String
  books : List (String × Book)
  borrowers : List (String × Borrower)
deriving DecidableEq

/-- `Library.checkout_book`: fails (returning `false` and the unchanged
state) when the book or borrower is unknown, the book is unavailable, or
the borrower cannot borrow; otherwise marks the book unavailable, lets the
borrower record the loan, and returns `true`. -/
def Library.checkout_book (lib : Library) (book_id borrower_id : String) :
    Bool × Library :=
  match dictFind lib.books book_id, dictFind lib.borrowers borrower_id with
  | some book, some borrower =>
    if !book.available || !borrower.can_borrow then (false, lib)
    else
      (true, { lib with
        books := dictSet lib.books book_id { book with available := false },
        borrowers := dictSet lib.borrowers borrower_id
          (borrower.borrow_book book_id).2 })
  | _, _ => (false, lib)

/-- `Library.return_book`: fails (returning `false` and the unchanged
state) when the book or borrower is unknown or the borrower does not hold
the book; otherwise marks the book available, removes the loan record, and
returns `true`. -/
def Library.return_book (lib : Library) (book_id borrower_id : String) :
    Bool × Library :=
  match dictFind lib.books book_id, dictFind lib.borrowers borrower_id with
  | some book, some borrower =>
    if book_id ∉ borrower.borrowed_books then (false, lib)
    else
      (true, { lib with
        books := dictSet lib.books book_id { book with available := true },
        borrowers := dictSet lib.borrowers borrower_id
          (borrower.return_book book_id).2 })
  | _, _ => (false, lib)

/-- One ledger operation: a `checkout_book` or a `return_book` call. -/
inductive LibOp where
  | checkout (book_id borrower_id : String)
  | doReturn (book_id borrower_id : String)
deriving DecidableEq

/-- Apply one ledger operation to the state (the boolean result is
discarded; the state transition is what the invariants are about). -/
def stepOp (lib : Library) : LibOp → Library
  | .checkout bid uid => (lib.checkout_book bid uid).2
  | .doReturn bid uid => (lib.return_book bid uid).2

/-- Run a sequence of ledger operations from a starting state. -/
def runOps (lib : Library) (ops : List LibOp) : Library :=
  ops.foldl stepOp lib

/-! ### The ledger invariant (claim C1) -/

/-- Total number of times `bid` occurs across all borrowers'
`borrowed_books` lists. -/
def heldCount (borrowers : List (String × Borrower)) (bid : String) : Nat :=
  (borrowers.map (fun p => p.2.borrowed_books.count bid)).sum

/-- Well-formedness of the registry dictionaries: keys are unique (they
are Python dict keys) and every stored entity's identity field equals its
key, as `add_book`/`add_borrower` construct them. -/
def LibraryWF (lib : Library) : Prop :=
  (lib.books.map Prod.fst).Nodup ∧ (lib.borrowers.map Prod.fst).Nodup ∧
  (∀ p ∈ lib.books, p.2.book_id = p.1) ∧ (∀ p ∈ lib.borrowers, p.2.borrower_id = p.1)

/-- The ledger invariant: a book id is recorded across borrowers' held
lists exactly once when the book is checked out and not at all when it is
available. -/
def LedgerInv (lib : Library) : Prop :=
  ∀ p ∈ lib.books, heldCount lib.borrowers p.1 = if p.2.available = true then 0 else 1

/-- A consistent registry state (the empty registry is one, and
`add_book`/`add_borrower` preserve consistency). -/
def Consistent (lib : Library) : Prop := LibraryWF lib ∧ LedgerInv lib

/-- Some borrower entry lists `bid` among its held books, and that entry
is unique. -/
def uniquelyHeld (borrowers : List (String × Borrower)) (bid : String) : Prop :=
  ∃ p, p ∈ borrowers ∧ bid ∈ p.2.borrowed_books ∧
    ∀ q, q ∈ borrowers → bid ∈ q.2.borrowed_books → q = p

/-! ### `generate_id` (project.py lines 40-59)

`id.split("_")` is modelled character-wise by `splitChars`, `int(...)` on
the digit suffix by `digitsToNat` (Python's `int` raises on a non-digit
string; a raised exception is modelled as `none`), and `f"{n:04d}"` by
`pad4`. -/

/-- Python `str.split(sep)` for a one-character separator. -/
def splitChars (sep : Char) : List Char → List (List Char)
  | [] => [[]]
  | c :: rest =>
    let r := splitChars sep rest
    if c = sep then [] :: r
    else
      match r with
      | [] => [[c]]
      | g :: gs => (c :: g) :: gs

/-- Python `int(s)` on a string of decimal digits; `none` models the
`ValueError` raised on an empty or non-digit string. -/
def digitsToNat (cs : List Char) : Option Nat :=
  if cs = [] then none
  else
    cs.foldl
      (fun acc c =>
        match acc with
        | none => none
        | some n => if c.isDigit then some (n * 10 + (c.toNat - 48)) else none)
      (some 0)

/-- `int(id.split("_")[1])`: the numeric value of the text between the
first and second underscore of an ID; `none` models the exception raised
when there is no underscore or the suffix is not numeric. -/
def suffixNum (id : String) : Option Nat :=
  match (splitChars '_' id.toList).get? 1 with
  | none => none
  | some cs => digitsToNat cs

/-- Python `f"{n:04d}"`: decimal digits of `n`, zero-padded on the left to
at least four characters. -/
def pad4 (n : Nat) : String :=
  let s := toString n
  if s.length < 4 then String.mk (List.replicate (4 - s.length) '0') ++ s
  else s

/-- `parseSuffixes` models the list comprehension
`[int(id.split("_")[1]) for id in existing_ids]`: it fails (the
comprehension raises) as soon as one ID fails to parse. -/
def parseSuffixes : List String → Option (List Nat)
  | [] => some []
  | id :: rest =>
    match suffixNum id with
    | none => none
    | some n =>
      match parseSuffixes rest with
      | none => none
      | some ns => some (n :: ns)

/-- `generate_id(prefix, existing_ids)`: `PREFIX_0001` for an empty list,
otherwise the prefix followed by the zero-padded successor of the largest
numeric suffix found among all the given IDs; `none` models the exception
raised when an ID does not parse. -/
def generate_id (pre : String) (existing_ids : List String) : Option String :=
  match existing_ids with
  | [] => some (pre ++ "_0001")
  | _ =>
    match parseSuffixes existing_ids with
    | none => none
    | some numbers => some (pre ++ "_" ++ pad4 (numbers.foldl Nat.max 0 + 1))

/-- Does the character list start with the given pattern? (Used only to
state which IDs carry a given prefix.) -/
def leadsWith : List Char → List Char → Bool
  | [], _ => true
  | _ :: _, [] => false
  | a :: pat, b :: cs => a = b && leadsWith pat cs

/-- Modelled from the spec's words, for comparison with `generate_id`:
the suffix is one more than the maximum numeric suffix among the existing
IDs *of that prefix*, or `0001` when no such IDs exist. -/
def generate_id_claim (pre : String) (existing_ids : List String) : Option String :=
  match existing_ids.filter (fun id => leadsWith (pre.toList ++ ['_']) id.toList) with
  | [] => some (pre ++ "_0001")
  | mine =>
    match parseSuffixes mine with
    | none => none
    | some numbers => some (pre ++ "_" ++ pad4 (numbers.foldl Nat.max 0 + 1))

/-! ### `search_items` (project.py lines 63-102)

A dictionary record is a `List (String × Value)`; `Value` covers the field
types occurring in book records (strings and the `available` boolean). -/

/-- A dictionary field value: a string or a boolean. -/
inductive Value where
  | str (s : String)
  | bool (b : Bool)
deriving DecidableEq

/-- A dictionary record, as handed to `search_items`. -/
abbrev Item := List (String × Value)

/-- Python `str.lower()` on one character (ASCII case folding). -/
def lowerChar (c : Char) : Char :=
  if 'A' ≤ c ∧ c ≤ 'Z' then Char.ofNat (c.toNat + 32) else c

/-- Python `str.lower()` (ASCII case folding, character by character). -/
def lowerStr (s : String) : String :=
  String.mk (s.toList.map lowerChar)

/-- The inner loop of `search_items` over one item: every criterion key
must be present, strings compare case-insensitively, anything else by
equality; the first failure breaks with a non-match. -/
def matchesItem (item : Item) : List (String × Value) → Bool
  | [] => true
  | (key, value) :: rest =>
    match dictFind item key with
    | none => false
    | some item_val =>
      match item_val, value with
      | .str a, .str b =>
        if lowerStr a == lowerStr b then matchesItem item rest else false
      | iv, v => if iv == v then matchesItem item rest else false

/-- `search_items(items, **criteria)`: collects, in order, the items that
match every criterion. -/
def search_items (items : List Item) (criteria : List (String × Value)) :
    List Item :=
  match items with
  | [] => []
  | item :: rest =>
    if matchesItem item criteria then item :: search_items rest criteria
    else search_items rest criteria

/-- `Book.to_dict`. -/
def Book.to_dict (b : Book) : Item :=
  [("book_id", .str b.book_id), ("title", .str b.title),
   ("author", .str b.author), ("genre", .str b.genre),
   ("available", .bool b.available)]

/-- `Library.search_books(**criteria)`: converts the books to dictionaries
and delegates to `search_items`. -/
def Library.search_books (lib : Library) (criteria : List (String × Value)) :
    List Item :=
  search_items (lib.books.map (fun p => p.2.to_dict)) criteria

/-- The specified match relation on field values: strings compare
case-insensitively, other values by equality. -/
def ValueMatches : Value → Value → Prop
  | Value.str a, Value.str b => lowerStr a = lowerStr b
  | a, b => a = b

/-- The specified match relation on records: every constrained field is
present and its value matches (a record missing a constrained field does
not match). -/
def ItemMatches (r : Item) (criteria : List (String × Value)) : Prop :=
  ∀ kv ∈ criteria, ∃ v, dictFind r kv.1 = some v ∧ ValueMatches v kv.2

/-! ### Concrete states used by the witnesses -/

/-- A concrete available book. -/
def wBook : Book := ⟨"BOOK_0001", "A", "X", "Fiction", true⟩

/-- A concrete borrower holding nothing. -/
def wBorrower : Borrower := ⟨"USER_0001", "Joe", "j@x.com", []⟩

/-- A concrete library: one available book, one borrower with no loans. -/
def wLib : Library := ⟨"Lib", [("BOOK_0001", wBook)], [("USER_0001", wBorrower)]⟩

/-- A concrete library in which the borrower holds the (checked-out) book. -/
def wLibOut : Library :=
  ⟨"Lib", [("BOOK_0001", ⟨"BOOK_0001", "A", "X", "Fiction", false⟩)],
   [("USER_0001", ⟨"USER_0001", "Joe", "j@x.com", ["BOOK_0001"]⟩)]⟩

/-- A concrete library with two books and two borrowers, for the frame
witness. -/
def wLib2 : Library :=
  ⟨"Lib",
   [("BOOK_0001", wBook), ("BOOK_0002", ⟨"BOOK_0002", "B", "Y", "Science", true⟩)],
   [("USER_0001", wBorrower), ("USER_0002", ⟨"USER_0002", "Ann", "a@x.com", []⟩)]⟩

/-! ### Association-list (dictionary) lemmas -/

theorem dictFind_dictSet_self {α : Type} (l : List (String × α)) (k : String) (v : α) :
    dictFind (dictSet l k v) k = (dictFind l k).map (fun _ => v) := by
  induction l with
  | nil => rfl
  | cons p rest ih =>
    obtain ⟨k', w⟩ := p
    simp only [dictSet]
    by_cases h : k' = k
    · rw [if_pos h]
      subst h
      simp [dictFind]
    · rw [if_neg h]
      simp [dictFind, h, ih]

theorem dictFind_dictSet_ne {α : Type} (l : List (String × α)) {k k' : String} (v : α)
    (h : k' ≠ k) : dictFind (dictSet l k v) k' = dictFind l k' := by
  induction l with
  | nil => rfl
  | cons p rest ih =>
    obtain ⟨k'', w⟩ := p
    simp only [dictSet]
    by_cases h2 : k'' = k
    · rw [if_pos h2]
      subst h2
      simp [dictFind, Ne.symm h, ih]
    · rw [if_neg h2]
      by_cases h3 : k'' = k'
      · simp [dictFind, h3]
      · simp [dictFind, h3, ih]

theorem dictFind_mem {α : Type} {l : List (String × α)} {k : String} {v : α}
    (h : dictFind l k = some v) : (k, v) ∈ l := by
  induction l with
  | nil => simp [dictFind] at h
  | cons p rest ih =>
    obtain ⟨k', w⟩ := p
    by_cases h2 : k' = k
    · subst h2
      simp [dictFind] at h
      subst h
      exact List.mem_cons_self _ _
    · simp [dictFind, h2] at h
      exact List.mem_cons_of_mem _ (ih h)

theorem mem_dictSet {α : Type} {l : List (String × α)} {k : String} {v : α} {p : String × α}
    (h : p ∈ dictSet l k v) : (p.1 ≠ k ∧ p ∈ l) ∨ p = (k, v) := by
  induction l with
  | nil => simp [dictSet] at h
  | cons q rest ih =>
    obtain ⟨k', w⟩ := q
    simp only [dictSet] at h
    by_cases h2 : k' = k
    · subst h2
      rw [if_pos rfl] at h
      rcases List.mem_cons.mp h with h3 | h3
      · exact Or.inr h3
      · rcases ih h3 with ⟨h4, h5⟩ | h4
        · exact Or.inl ⟨h4, List.mem_cons_of_mem _ h5⟩
        · exact Or.inr h4
    · rw [if_neg h2] at h
      rcases List.mem_cons.mp h with h3 | h3
      · subst h3
        exact Or.inl ⟨h2, List.mem_cons_self _ _⟩
      · rcases ih h3 with ⟨h4, h5⟩ | h4
        · exact Or.inl ⟨h4, List.mem_cons_of_mem _ h5⟩
        · exact Or.inr h4

theorem keys_dictSet {α : Type} (l : List (String × α)) (k : String) (v : α) :
    (dictSet l k v).map Prod.fst = l.map Prod.fst := by
  induction l with
  | nil => rfl
  | cons p rest ih =>
    obtain ⟨k', w⟩ := p
    by_cases h : k' = k
    · subst h
      simp [dictSet, ih]
    · simp [dictSet, h, ih]

theorem dictSet_of_key_not_mem {α : Type} {l : List (String × α)} {k : String} (v : α)
    (h : k ∉ l.map Prod.fst) : dictSet l k v = l := by
  induction l with
  | nil => rfl
  | cons p rest ih =>
    obtain ⟨k', w⟩ := p
    simp only [List.map_cons, List.mem_cons] at h
    push_neg at h
    simp [dictSet, Ne.symm h.1, ih h.2]

theorem dictFind_isSome_of_mem {α : Type} {l : List (String × α)} {k : String} {v : α}
    (h : (k, v) ∈ l) : ∃ w, dictFind l k = some w := by
  induction l with
  | nil => simp at h
  | cons p rest ih =>
    obtain ⟨k', w'⟩ := p
    by_cases h2 : k' = k
    · exact ⟨w', by simp [dictFind, h2]⟩
    · rcases List.mem_cons.mp h with h3 | h3
      · cases h3; exact absurd rfl h2
      · obtain ⟨w, hw⟩ := ih h3
        exact ⟨w, by simp [dictFind, h2, hw]⟩

/-! ### Characterization of `checkout_book` and `return_book` -/

theorem checkout_book_eq_of_success {lib : Library} {book_id borrower_id : String}
    {book : Book} {u : Borrower}
    (hb : dictFind lib.books book_id = some book)
    (hu : dictFind lib.borrowers borrower_id = some u)
    (hav : book.available = true) (hcb : u.can_borrow = true) :
    lib.checkout_book book_id borrower_id =
      (true, { lib with
        books := dictSet lib.books book_id { book with available := false },
        borrowers := dictSet lib.borrowers borrower_id
          { u with borrowed_books := u.borrowed_books ++ [book_id] } }) := by
  simp [Library.checkout_book, hb, hu, hav, hcb, Borrower.borrow_book]

theorem checkout_book_of_fst_true {lib : Library} {book_id borrower_id : String}
    (h : (lib.checkout_book book_id borrower_id).1 = true) :
    ∃ book u, dictFind lib.books book_id = some book ∧
      dictFind lib.borrowers borrower_id = some u ∧
      book.available = true ∧ u.can_borrow = true := by
  unfold Library.checkout_book at h
  cases hb : dictFind lib.books book_id with
  | none => cases hu : dictFind lib.borrowers borrower_id <;> simp [hb, hu] at h
  | some book =>
    cases hu : dictFind lib.borrowers borrower_id with
    | none => simp [hb, hu] at h
    | some u =>
      simp only [hb, hu] at h
      by_cases hav : book.available = true
      · by_cases hcb : u.can_borrow = true
        · exact ⟨book, u, rfl, rfl, hav, hcb⟩
        · simp [Bool.not_eq_true] at hcb
          simp [hcb] at h
      · simp [Bool.not_eq_true] at hav
        simp [hav] at h

theorem checkout_book_snd_of_fst_false {lib : Library} {book_id borrower_id : String}
    (h : (lib.checkout_book book_id borrower_id).1 = false) :
    (lib.checkout_book book_id borrower_id).2 = lib := by
  unfold Library.checkout_book at h ⊢
  cases hb : dictFind lib.books book_id with
  | none => cases hu : dictFind lib.borrowers borrower_id <;> simp [hb, hu]
  | some book =>
    cases hu : dictFind lib.borrowers borrower_id with
    | none => simp [hb, hu]
    | some u =>
      simp only [hb, hu] at h ⊢
      by_cases hg : (!book.available || !u.can_borrow) = true
      · simp [hg]
      · simp [hg] at h

theorem return_book_eq_of_success {lib : Library} {book_id borrower_id : String}
    {book : Book} {u : Borrower}
    (hb : dictFind lib.books book_id = some book)
    (hu : dictFind lib.borrowers borrower_id = some u)
    (hmem : book_id ∈ u.borrowed_books) :
    lib.return_book book_id borrower_id =
      (true, { lib with
        books := dictSet lib.books book_id { book with available := true },
        borrowers := dictSet lib.borrowers borrower_id
          { u with borrowed_books := u.borrowed_books.erase book_id } }) := by
  simp [Library.return_book, hb, hu, hmem, Borrower.return_book]

theorem return_book_of_fst_true {lib : Library} {book_id borrower_id : String}
    (h : (lib.return_book book_id borrower_id).1 = true) :
    ∃ book u, dictFind lib.books book_id = some book ∧
      dictFind lib.borrowers borrower_id = some u ∧
      book_id ∈ u.borrowed_books := by
  unfold Library.return_book at h
  cases hb : dictFind lib.books book_id with
  | none => cases hu : dictFind lib.borrowers borrower_id <;> simp [hb, hu] at h
  | some book =>
    cases hu : dictFind lib.borrowers borrower_id with
    | none => simp [hb, hu] at h
    | some u =>
      simp only [hb, hu] at h
      by_cases hmem : book_id ∈ u.borrowed_books
      · exact ⟨book, u, rfl, rfl, hmem⟩
      · simp [hmem] at h

theorem return_book_snd_of_fst_false {lib : Library} {book_id borrower_id : String}
    (h : (lib.return_book book_id borrower_id).1 = false) :
    (lib.return_book book_id borrower_id).2 = lib := by
  unfold Library.return_book at h ⊢
  cases hb : dictFind lib.books book_id with
  | none => cases hu : dictFind lib.borrowers borrower_id <;> simp [hb, hu]
  | some book =>
    cases hu : dictFind lib.borrowers borrower_id with
    | none => simp [hb, hu]
    | some u =>
      simp only [hb, hu] at h ⊢
      by_cases hmem : book_id ∈ u.borrowed_books
      · simp [hmem] at h
      · simp [hmem]

/-! ### Claims C2 and C3 -/

/-- C2: when the book exists, the borrower exists, the book is available,
and the borrower holds fewer than `MAX_BOOKS = 3` books, `checkout_book`
returns success, and in the one resulting state the book's `available`
flag is `false` and `book_id` has been appended to that borrower's
`borrowed_books` — both updates are part of the same state transition. -/
theorem checkout_book_success_updates (lib : Library) (book_id borrower_id : String)
    (book : Book) (u : Borrower)
    (hb : dictFind lib.books book_id = some book)
    (hu : dictFind lib.borrowers borrower_id = some u)
    (hav : book.available = true)
    (hcap : u.borrowed_books.length < Borrower.MAX_BOOKS) :
    (lib.checkout_book book_id borrower_id).1 = true ∧
    dictFind (lib.checkout_book book_id borrower_id).2.books book_id =
      some { book with available := false } ∧
    dictFind (lib.checkout_book book_id borrower_id).2.borrowers borrower_id =
      some { u with borrowed_books := u.borrowed_books ++ [book_id] } := by
  have hcb : u.can_borrow = true := by
    simp only [Borrower.can_borrow, decide_eq_true_eq]
    exact hcap
  rw [checkout_book_eq_of_success hb hu hav hcb]
  refine ⟨rfl, ?_, ?_⟩
  · show dictFind (dictSet lib.books book_id _) book_id = _
    rw [dictFind_dictSet_self, hb]
    rfl
  · show dictFind (dictSet lib.borrowers borrower_id _) borrower_id = _
    rw [dictFind_dictSet_self, hu]
    rfl

/-- Witness for C2 at a concrete state. -/
theorem checkout_book_success_updates_witness :
    (wLib.checkout_book "BOOK_0001" "USER_0001").1 = true ∧
    dictFind (wLib.checkout_book "BOOK_0001" "USER_0001").2.books "BOOK_0001" =
      some ⟨"BOOK_0001", "A", "X", "Fiction", false⟩ ∧
    dictFind (wLib.checkout_book "BOOK_0001" "USER_0001").2.borrowers "USER_0001" =
      some ⟨"USER_0001", "Joe", "j@x.com", ["BOOK_0001"]⟩ :=
  checkout_book_success_updates wLib "BOOK_0001" "USER_0001" wBook wBorrower
    (by decide) (by decide) (by decide) (by decide)

/-- C3: when any checkout precondition is unmet — unknown book, unknown
borrower, book already unavailable, or borrower already at the three-book
limit — `checkout_book` reports failure as the boolean `false` and returns
the registry state completely unchanged. -/
theorem checkout_book_failure_no_change (lib : Library) (book_id borrower_id : String)
    (h : dictFind lib.books book_id = none ∨
         dictFind lib.borrowers borrower_id = none ∨
         (∃ book, dictFind lib.books book_id = some book ∧ book.available = false) ∨
         (∃ u, dictFind lib.borrowers borrower_id = some u ∧
            ¬ u.borrowed_books.length < Borrower.MAX_BOOKS)) :
    lib.checkout_book book_id borrower_id = (false, lib) := by
  have hf : (lib.checkout_book book_id borrower_id).1 = false := by
    cases hfst : (lib.checkout_book book_id borrower_id).1 with
    | false => rfl
    | true =>
      exfalso
      obtain ⟨book, u, hb, hu, hav, hcb⟩ := checkout_book_of_fst_true hfst
      rcases h with h | h | ⟨book2, hb2, hav2⟩ | ⟨u2, hu2, hcap2⟩
      · rw [h] at hb
        exact Option.noConfusion hb
      · rw [h] at hu
        exact Option.noConfusion hu
      · rw [hb] at hb2
        injection hb2 with hbe
        rw [← hbe, hav] at hav2
        exact Bool.noConfusion hav2
      · rw [hu] at hu2
        injection hu2 with hue
        apply hcap2
        rw [← hue]
        simpa only [Borrower.can_borrow, decide_eq_true_eq] using hcb
  have hs := checkout_book_snd_of_fst_false hf
  have hpair : lib.checkout_book book_id borrower_id =
      ((lib.checkout_book book_id borrower_id).1,
       (lib.checkout_book book_id borrower_id).2) := rfl
  rw [hpair, hf, hs]

/-- Witness for C3 at a concrete state (unknown book id). -/
theorem checkout_book_failure_no_change_witness :
    wLib.checkout_book "BOOK_0099" "USER_0001" = (false, wLib) :=
  checkout_book_failure_no_change wLib "BOOK_0099" "USER_0001" (Or.inl (by decide))

/-! ### Claims C5, C6, C7 and C10 -/

/-- C5: `return_book` succeeds exactly when the book exists, the borrower
exists, and the borrower currently holds the book; on success it removes
the book id from `borrowed_books` and sets the book's `available` flag to
`true` in the same resulting state, and on failure the state is
unchanged. -/
theorem return_book_success_iff (lib : Library) (book_id borrower_id : String) :
    ((lib.return_book book_id borrower_id).1 = true ↔
      ∃ book u, dictFind lib.books book_id = some book ∧
        dictFind lib.borrowers borrower_id = some u ∧
        book_id ∈ u.borrowed_books) ∧
    ((lib.return_book book_id borrower_id).1 = false →
      (lib.return_book book_id borrower_id).2 = lib) ∧
    (∀ book u, dictFind lib.books book_id = some book →
      dictFind lib.borrowers borrower_id = some u →
      book_id ∈ u.borrowed_books →
      dictFind (lib.return_book book_id borrower_id).2.books book_id =
        some { book with available := true } ∧
      dictFind (lib.return_book book_id borrower_id).2.borrowers borrower_id =
        some { u with borrowed_books := u.borrowed_books.erase book_id }) := by
  refine ⟨⟨return_book_of_fst_true, ?_⟩, return_book_snd_of_fst_false, ?_⟩
  · rintro ⟨book, u, hb, hu, hmem⟩
    rw [return_book_eq_of_success hb hu hmem]
  · intro book u hb hu hmem
    rw [return_book_eq_of_success hb hu hmem]
    constructor
    · show dictFind (dictSet lib.books book_id _) book_id = _
      rw [dictFind_dictSet_self, hb]
      rfl
    · show dictFind (dictSet lib.borrowers borrower_id _) borrower_id = _
      rw [dictFind_dictSet_self, hu]
      rfl

/-- Witness for C5 at a concrete state where the return succeeds. -/
theorem return_book_success_iff_witness :
    (wLibOut.return_book "BOOK_0001" "USER_0001").1 = true ∧
    dictFind (wLibOut.return_book "BOOK_0001" "USER_0001").2.books "BOOK_0001" =
      some ⟨"BOOK_0001", "A", "X", "Fiction", true⟩ :=
  ⟨(return_book_success_iff wLibOut "BOOK_0001" "USER_0001").1.mpr
      ⟨⟨"BOOK_0001", "A", "X", "Fiction", false⟩,
       ⟨"USER_0001", "Joe", "j@x.com", ["BOOK_0001"]⟩,
       by decide, by decide, by decide⟩,
   ((return_book_success_iff wLibOut "BOOK_0001" "USER_0001").2.2
      ⟨"BOOK_0001", "A", "X", "Fiction", false⟩
      ⟨"USER_0001", "Joe", "j@x.com", ["BOOK_0001"]⟩
      (by decide) (by decide) (by decide)).1⟩

/-- Removing a just-appended element returns a permutation of the original
list (Python's `list.remove` removes one occurrence). -/
theorem erase_append_singleton_perm (l : List String) (a : String) :
    ((l ++ [a]).erase a).Perm l := by
  have h1 : (l ++ [a]).Perm (a :: l) := List.perm_append_singleton a l
  have h2 := h1.erase a
  rw [List.erase_cons_head] at h2
  exact h2

/-- C6: whenever `checkout_book` succeeds, the immediately following
`return_book` of the same pair succeeds, the book is restored exactly, and
the borrower is restored up to the order of `borrowed_books` (the spec
treats held books as an order-insensitive set). -/
theorem checkout_then_return_roundtrip (lib : Library) (book_id borrower_id : String)
    (book : Book) (u : Borrower)
    (hb : dictFind lib.books book_id = some book)
    (hu : dictFind lib.borrowers borrower_id = some u)
    (hs : (lib.checkout_book book_id borrower_id).1 = true) :
    ((lib.checkout_book book_id borrower_id).2.return_book book_id borrower_id).1 = true ∧
    dictFind ((lib.checkout_book book_id borrower_id).2.return_book
        book_id borrower_id).2.books book_id = some book ∧
    ∃ u2, dictFind ((lib.checkout_book book_id borrower_id).2.return_book
        book_id borrower_id).2.borrowers borrower_id = some u2 ∧
      u2.borrower_id = u.borrower_id ∧ u2.name = u.name ∧ u2.email = u.email ∧
      u2.borrowed_books.Perm u.borrowed_books := by
  obtain ⟨book', u', hb', hu', hav, hcb⟩ := checkout_book_of_fst_true hs
  rw [hb] at hb'
  injection hb' with hbe
  rw [hu] at hu'
  injection hu' with hue
  subst hbe
  subst hue
  have hbook_eta : ({ book with available := true } : Book) = book := by
    obtain ⟨bid, bt, ba, bg, av⟩ := book
    have hav' : av = true := hav
    subst hav'
    rfl
  rw [checkout_book_eq_of_success hb hu hav hcb]
  have hb1 : dictFind (dictSet lib.books book_id { book with available := false })
      book_id = some { book with available := false } := by
    rw [dictFind_dictSet_self, hb]
    rfl
  have hu1 : dictFind (dictSet lib.borrowers borrower_id
      { u with borrowed_books := u.borrowed_books ++ [book_id] }) borrower_id =
      some { u with borrowed_books := u.borrowed_books ++ [book_id] } := by
    rw [dictFind_dictSet_self, hu]
    rfl
  have hmem : book_id ∈ u.borrowed_books ++ [book_id] :=
    List.mem_append.mpr (Or.inr (List.mem_singleton.mpr rfl))
  rw [return_book_eq_of_success hb1 hu1 hmem]
  refine ⟨rfl, ?_, ?_⟩
  · show dictFind (dictSet _ book_id _) book_id = _
    rw [dictFind_dictSet_self, hb1]
    exact congrArg some hbook_eta
  · refine ⟨{ u with borrowed_books := (u.borrowed_books ++ [book_id]).erase book_id },
      ?_, rfl, rfl, rfl, erase_append_singleton_perm _ _⟩
    show dictFind (dictSet _ borrower_id _) borrower_id = _
    rw [dictFind_dictSet_self, hu1]
    rfl

/-- Witness for C6 at a concrete state. -/
theorem checkout_then_return_roundtrip_witness :
    ((wLib.checkout_book "BOOK_0001" "USER_0001").2.return_book
        "BOOK_0001" "USER_0001").1 = true ∧
    dictFind ((wLib.checkout_book "BOOK_0001" "USER_0001").2.return_book
        "BOOK_0001" "USER_0001").2.books "BOOK_0001" = some wBook ∧
    ∃ u2, dictFind ((wLib.checkout_book "BOOK_0001" "USER_0001").2.return_book
        "BOOK_0001" "USER_0001").2.borrowers "USER_0001" = some u2 ∧
      u2.borrower_id = wBorrower.borrower_id ∧ u2.name = wBorrower.name ∧
      u2.email = wBorrower.email ∧
      u2.borrowed_books.Perm wBorrower.borrowed_books :=
  checkout_then_return_roundtrip wLib "BOOK_0001" "USER_0001" wBook wBorrower
    (by decide) (by decide) (by decide)

/-- C7: constructing a `Book` succeeds exactly when the genre belongs to
the fixed list `Book.GENRES`; a valid genre and the other fields are
stored unchanged (never coerced), and an invalid genre raises immediately
(modelled as `Except.error`). -/
theorem book_init_genre_validation (book_id title author genre : String)
    (available : Bool) :
    ((∃ b, Book.init book_id title author genre available = Except.ok b) ↔
      genre ∈ Book.GENRES) ∧
    (∀ b, Book.init book_id title author genre available = Except.ok b →
      b.book_id = book_id ∧ b.title = title ∧ b.author = author ∧
      b.genre = genre ∧ b.available = available) ∧
    (genre ∉ Book.GENRES →
      ∃ msg, Book.init book_id title author genre available = Except.error msg) := by
  by_cases h : genre ∈ Book.GENRES
  · refine ⟨⟨fun _ => h,
      fun _ => ⟨⟨book_id, title, author, genre, available⟩, by simp [Book.init, h]⟩⟩,
      ?_, fun hn => absurd h hn⟩
    intro b hb
    simp only [Book.init, if_pos h] at hb
    injection hb with hbe
    rw [← hbe]
    exact ⟨rfl, rfl, rfl, rfl, rfl⟩
  · refine ⟨⟨?_, fun hg => absurd hg h⟩, ?_,
      fun _ => ⟨"Genre must be one of GENRES", by simp [Book.init, h]⟩⟩
    · rintro ⟨b, hb⟩
      simp [Book.init, h] at hb
    · intro b hb
      simp [Book.init, h] at hb

/-- Witness for C7: a valid and an invalid construction attempt. -/
theorem book_init_genre_validation_witness :
    (∃ b, Book.init "B" "T" "A" "Fiction" true = Except.ok b) ∧
    (∃ msg, Book.init "B" "T" "A" "Poetry" true = Except.error msg) :=
  ⟨(book_init_genre_validation "B" "T" "A" "Fiction" true).1.mpr (by decide),
   (book_init_genre_validation "B" "T" "A" "Poetry" true).2.2 (by decide)⟩

/-- C10: a successful `checkout_book` or `return_book` leaves every book
other than the named one and every borrower other than the named one
completely unchanged. -/
theorem checkout_return_frame (lib : Library) (book_id borrower_id bid2 uid2 : String)
    (hb2 : bid2 ≠ book_id) (hu2 : uid2 ≠ borrower_id) :
    ((lib.checkout_book book_id borrower_id).1 = true →
      dictFind (lib.checkout_book book_id borrower_id).2.books bid2 =
        dictFind lib.books bid2 ∧
      dictFind (lib.checkout_book book_id borrower_id).2.borrowers uid2 =
        dictFind lib.borrowers uid2) ∧
    ((lib.return_book book_id borrower_id).1 = true →
      dictFind (lib.return_book book_id borrower_id).2.books bid2 =
        dictFind lib.books bid2 ∧
      dictFind (lib.return_book book_id borrower_id).2.borrowers uid2 =
        dictFind lib.borrowers uid2) := by
  constructor
  · intro hs
    obtain ⟨book, u, hb, hu, hav, hcb⟩ := checkout_book_of_fst_true hs
    rw [checkout_book_eq_of_success hb hu hav hcb]
    exact ⟨dictFind_dictSet_ne _ _ hb2, dictFind_dictSet_ne _ _ hu2⟩
  · intro hs
    obtain ⟨book, u, hb, hu, hmem⟩ := return_book_of_fst_true hs
    rw [return_book_eq_of_success hb hu hmem]
    exact ⟨dictFind_dictSet_ne _ _ hb2, dictFind_dictSet_ne _ _ hu2⟩

/-- Witness for C10 at a concrete two-book, two-borrower state. -/
theorem checkout_return_frame_witness :
    dictFind (wLib2.checkout_book "BOOK_0001" "USER_0001").2.books "BOOK_0002" =
      dictFind wLib2.books "BOOK_0002" ∧
    dictFind (wLib2.checkout_book "BOOK_0001" "USER_0001").2.borrowers "USER_0002" =
      dictFind wLib2.borrowers "USER_0002" :=
  (checkout_return_frame wLib2 "BOOK_0001" "USER_0001" "BOOK_0002" "USER_0002"
    (by decide) (by decide)).1 (by decide)

/-! ### Claim C4: the three-book limit is invariant -/

theorem stepOp_within_limit {lib : Library}
    (h : ∀ p ∈ lib.borrowers, p.2.borrowed_books.length ≤ Borrower.MAX_BOOKS)
    (op : LibOp) :
    ∀ p ∈ (stepOp lib op).borrowers,
      p.2.borrowed_books.length ≤ Borrower.MAX_BOOKS := by
  cases op with
  | checkout bid uid =>
    show ∀ p ∈ (lib.checkout_book bid uid).2.borrowers, _
    cases hf : (lib.checkout_book bid uid).1 with
    | false =>
      rw [checkout_book_snd_of_fst_false hf]
      exact h
    | true =>
      obtain ⟨book, u, hb, hu, hav, hcb⟩ := checkout_book_of_fst_true hf
      rw [checkout_book_eq_of_success hb hu hav hcb]
      intro p hp
      rcases mem_dictSet hp with ⟨_, hmem⟩ | heq
      · exact h p hmem
      · rw [heq]
        show (u.borrowed_books ++ [bid]).length ≤ Borrower.MAX_BOOKS
        rw [List.length_append, List.length_singleton]
        have hlt : u.borrowed_books.length < Borrower.MAX_BOOKS := by
          simpa only [Borrower.can_borrow, decide_eq_true_eq] using hcb
        omega
  | doReturn bid uid =>
    show ∀ p ∈ (lib.return_book bid uid).2.borrowers, _
    cases hf : (lib.return_book bid uid).1 with
    | false =>
      rw [return_book_snd_of_fst_false hf]
      exact h
    | true =>
      obtain ⟨book, u, hb, hu, hmem⟩ := return_book_of_fst_true hf
      rw [return_book_eq_of_success hb hu hmem]
      intro p hp
      rcases mem_dictSet hp with ⟨_, hmem2⟩ | heq
      · exact h p hmem2
      · rw [heq]
        show (u.borrowed_books.erase bid).length ≤ Borrower.MAX_BOOKS
        have h1 := (List.erase_sublist bid u.borrowed_books).length_le
        have h2 := h (uid, u) (dictFind_mem hu)
        exact le_trans h1 h2

/-- C4: starting from any state in which every borrower holds at most
`MAX_BOOKS = 3` books, every state produced by any sequence of
`checkout_book` and `return_book` calls still has every borrower holding
at most three books. -/
theorem borrowed_books_le_max (lib : Library) (ops : List LibOp)
    (h : ∀ p ∈ lib.borrowers, p.2.borrowed_books.length ≤ Borrower.MAX_BOOKS) :
    ∀ p ∈ (runOps lib ops).borrowers,
      p.2.borrowed_books.length ≤ Borrower.MAX_BOOKS := by
  induction ops generalizing lib with
  | nil => exact h
  | cons op rest ih =>
    show ∀ p ∈ (runOps (stepOp lib op) rest).borrowers, _
    exact ih (stepOp lib op) (stepOp_within_limit h op)

/-- Witness for C4: after a concrete checkout the borrower still holds at
most three books. -/
theorem borrowed_books_le_max_witness :
    (Borrower.mk "USER_0001" "Joe" "j@x.com" ["BOOK_0001"]).borrowed_books.length ≤
      Borrower.MAX_BOOKS :=
  borrowed_books_le_max wLib [LibOp.checkout "BOOK_0001" "USER_0001"] (by decide)
    ("USER_0001", ⟨"USER_0001", "Joe", "j@x.com", ["BOOK_0001"]⟩) (by decide)

/-! ### Claim C1: availability matches a unique holder -/

theorem count_le_heldCount {bs : List (String × Borrower)} {p : String × Borrower}
    (h : p ∈ bs) (bid : String) :
    p.2.borrowed_books.count bid ≤ heldCount bs bid := by
  induction bs with
  | nil => simp at h
  | cons q rest ih =>
    rcases List.mem_cons.mp h with heq | hmem
    · subst heq
      simp only [heldCount, List.map_cons, List.sum_cons]
      exact Nat.le_add_right _ _
    · have := ih hmem
      simp only [heldCount, List.map_cons, List.sum_cons] at this ⊢
      omega

theorem heldCount_dictSet {bs : List (String × Borrower)} {k : String} {u : Borrower}
    (hnd : (bs.map Prod.fst).Nodup) (hf : dictFind bs k = some u)
    (u' : Borrower) (bid : String) :
    heldCount (dictSet bs k u') bid + u.borrowed_books.count bid =
      heldCount bs bid + u'.borrowed_books.count bid := by
  induction bs with
  | nil => simp [dictFind] at hf
  | cons q rest ih =>
    obtain ⟨k', w⟩ := q
    simp only [List.map_cons, List.nodup_cons] at hnd
    obtain ⟨hknotin, hnd'⟩ := hnd
    simp only [dictSet]
    by_cases hk : k' = k
    · rw [if_pos hk]
      subst hk
      have hw : w = u := by
        simp [dictFind] at hf
        exact hf
      subst hw
      rw [dictSet_of_key_not_mem u' hknotin]
      simp only [heldCount, List.map_cons, List.sum_cons]
      omega
    · rw [if_neg hk]
      have hf' : dictFind rest k = some u := by
        simpa [dictFind, hk] using hf
      have := ih hnd' hf'
      simp only [heldCount, List.map_cons, List.sum_cons] at this ⊢
      omega

theorem uniquelyHeld_of_heldCount_eq_one {bs : List (String × Borrower)} {bid : String}
    (h : heldCount bs bid = 1) : uniquelyHeld bs bid := by
  induction bs with
  | nil => simp [heldCount] at h
  | cons q rest ih =>
    simp only [heldCount, List.map_cons, List.sum_cons] at h
    by_cases hq : bid ∈ q.2.borrowed_books
    · have hpos : 0 < q.2.borrowed_books.count bid := List.count_pos_iff.mpr hq
      refine ⟨q, List.mem_cons_self _ _, hq, ?_⟩
      intro r hr hrb
      rcases List.mem_cons.mp hr with h1 | h1
      · exact h1
      · exfalso
        have h2 : 0 < r.2.borrowed_books.count bid := List.count_pos_iff.mpr hrb
        have h3 := count_le_heldCount h1 bid
        simp only [heldCount] at h3
        omega
    · have hqc : q.2.borrowed_books.count bid = 0 := List.count_eq_zero.mpr hq
      rw [hqc] at h
      have h' : heldCount rest bid = 1 := by
        simp only [heldCount]
        omega
      obtain ⟨p, hp, hpb, huniq⟩ := ih h'
      refine ⟨p, List.mem_cons_of_mem _ hp, hpb, ?_⟩
      intro r hr hrb
      rcases List.mem_cons.mp hr with h1 | h1
      · exfalso
        rw [h1] at hrb
        exact hq hrb
      · exact huniq r h1 hrb

theorem checkout_book_consistent {lib : Library} (h : Consistent lib)
    (bid uid : String) : Consistent (lib.checkout_book bid uid).2 := by
  obtain ⟨⟨hndb, hndu, hcohb, hcohu⟩, hinv⟩ := h
  cases hf : (lib.checkout_book bid uid).1 with
  | false =>
    rw [checkout_book_snd_of_fst_false hf]
    exact ⟨⟨hndb, hndu, hcohb, hcohu⟩, hinv⟩
  | true =>
    obtain ⟨book, u, hb, hu, hav, hcb⟩ := checkout_book_of_fst_true hf
    rw [checkout_book_eq_of_success hb hu hav hcb]
    have hbmem := dictFind_mem hb
    have humem := dictFind_mem hu
    have hbid : book.book_id = bid := hcohb _ hbmem
    have huid : u.borrower_id = uid := hcohu _ humem
    have hheld0 : heldCount lib.borrowers bid = 0 := by
      have hI := hinv _ hbmem
      dsimp only at hI
      rw [hav] at hI
      simpa using hI
    have hcount_u : u.borrowed_books.count bid = 0 := by
      have hcl := count_le_heldCount humem bid
      dsimp only at hcl
      omega
    constructor
    · refine ⟨?_, ?_, ?_, ?_⟩
      · show ((dictSet lib.books bid _).map Prod.fst).Nodup
        rw [keys_dictSet]
        exact hndb
      · show ((dictSet lib.borrowers uid _).map Prod.fst).Nodup
        rw [keys_dictSet]
        exact hndu
      · intro p hp
        rcases mem_dictSet hp with ⟨_, hmem⟩ | heq
        · exact hcohb p hmem
        · rw [heq]
          exact hbid
      · intro p hp
        rcases mem_dictSet hp with ⟨_, hmem⟩ | heq
        · exact hcohu p hmem
        · rw [heq]
          exact huid
    · intro p hp
      rcases mem_dictSet hp with ⟨hne, hmem⟩ | heq
      · have hold := hinv p hmem
        have hstep := heldCount_dictSet hndu hu
          { u with borrowed_books := u.borrowed_books ++ [bid] } p.1
        dsimp only at hstep
        have happ : (u.borrowed_books ++ [bid]).count p.1 =
            u.borrowed_books.count p.1 := by
          rw [List.count_append]
          have hz : [bid].count p.1 = 0 := by
            rw [List.count_eq_zero]
            intro hin
            exact hne (List.mem_singleton.mp hin)
          omega
        show heldCount (dictSet lib.borrowers uid _) p.1 = _
        omega
      · have hone : heldCount (dictSet lib.borrowers uid
            { u with borrowed_books := u.borrowed_books ++ [bid] }) bid = 1 := by
          have hstep := heldCount_dictSet hndu hu
            { u with borrowed_books := u.borrowed_books ++ [bid] } bid
          dsimp only at hstep
          have happ : (u.borrowed_books ++ [bid]).count bid =
              u.borrowed_books.count bid + 1 := by
            rw [List.count_append, List.count_singleton_self]
          omega
        rw [heq]
        exact hone

theorem return_book_consistent {lib : Library} (h : Consistent lib)
    (bid uid : String) : Consistent (lib.return_book bid uid).2 := by
  obtain ⟨⟨hndb, hndu, hcohb, hcohu⟩, hinv⟩ := h
  cases hf : (lib.return_book bid uid).1 with
  | false =>
    rw [return_book_snd_of_fst_false hf]
    exact ⟨⟨hndb, hndu, hcohb, hcohu⟩, hinv⟩
  | true =>
    obtain ⟨book, u, hb, hu, hmem⟩ := return_book_of_fst_true hf
    rw [return_book_eq_of_success hb hu hmem]
    have hbmem := dictFind_mem hb
    have humem := dictFind_mem hu
    have hbid : book.book_id = bid := hcohb _ hbmem
    have huid : u.borrower_id = uid := hcohu _ humem
    have hcpos : 0 < u.borrowed_books.count bid := List.count_pos_iff.mpr hmem
    have hle := count_le_heldCount humem bid
    dsimp only at hle
    have hI := hinv _ hbmem
    dsimp only at hI
    have havail : book.available = false := by
      cases hab : book.available with
      | false => rfl
      | true =>
        rw [hab] at hI
        simp at hI
        omega
    have hheld1 : heldCount lib.borrowers bid = 1 := by
      rw [havail] at hI
      simpa using hI
    have hcount1 : u.borrowed_books.count bid = 1 := by omega
    constructor
    · refine ⟨?_, ?_, ?_, ?_⟩
      · show ((dictSet lib.books bid _).map Prod.fst).Nodup
        rw [keys_dictSet]
        exact hndb
      · show ((dictSet lib.borrowers uid _).map Prod.fst).Nodup
        rw [keys_dictSet]
        exact hndu
      · intro p hp
        rcases mem_dictSet hp with ⟨_, hmem2⟩ | heq
        · exact hcohb p hmem2
        · rw [heq]
          exact hbid
      · intro p hp
        rcases mem_dictSet hp with ⟨_, hmem2⟩ | heq
        · exact hcohu p hmem2
        · rw [heq]
          exact huid
    · intro p hp
      rcases mem_dictSet hp with ⟨hne, hmem2⟩ | heq
      · have hold := hinv p hmem2
        have hstep := heldCount_dictSet hndu hu
          { u with borrowed_books := u.borrowed_books.erase bid } p.1
        dsimp only at hstep
        have herase : (u.borrowed_books.erase bid).count p.1 =
            u.borrowed_books.count p.1 := List.count_erase_of_ne hne _
        show heldCount (dictSet lib.borrowers uid _) p.1 = _
        omega
      · have hzero : heldCount (dictSet lib.borrowers uid
            { u with borrowed_books := u.borrowed_books.erase bid }) bid = 0 := by
          have hstep := heldCount_dictSet hndu hu
            { u with borrowed_books := u.borrowed_books.erase bid } bid
          dsimp only at hstep
          have herase : (u.borrowed_books.erase bid).count bid =
              u.borrowed_books.count bid - 1 := List.count_erase_self _ _
          omega
        rw [heq]
        exact hzero

theorem stepOp_consistent {lib : Library} (h : Consistent lib) (op : LibOp) :
    Consistent (stepOp lib op) := by
  cases op with
  | checkout bid uid => exact checkout_book_consistent h bid uid
  | doReturn bid uid => exact return_book_consistent h bid uid

theorem runOps_consistent {lib : Library} (h : Consistent lib) (ops : List LibOp) :
    Consistent (runOps lib ops) := by
  induction ops generalizing lib with
  | nil => exact h
  | cons op rest ih =>
    show Consistent (runOps (stepOp lib op) rest)
    exact ih (stepOp_consistent h op)

/-- C1: in every state reachable from a consistent state (for example the
empty registry) by `checkout_book`/`return_book` calls, a book's
`available` flag is `false` exactly when a unique borrower entry lists its
`book_id` among its `borrowed_books`. -/
theorem reachable_available_iff_uniquely_held (lib : Library) (ops : List LibOp)
    (h : Consistent lib) :
    ∀ p ∈ (runOps lib ops).books,
      (p.2.available = false ↔
        uniquelyHeld (runOps lib ops).borrowers p.2.book_id) := by
  have hc : Consistent (runOps lib ops) := runOps_consistent h ops
  intro p hp
  obtain ⟨⟨hndb, hndu, hcohb, hcohu⟩, hinv⟩ := hc
  have hbid : p.2.book_id = p.1 := hcohb p hp
  rw [hbid]
  have hI := hinv p hp
  constructor
  · intro hav
    rw [hav] at hI
    simp only [Bool.false_eq_true, if_false] at hI
    exact uniquelyHeld_of_heldCount_eq_one hI
  · intro hun
    cases hab : p.2.available with
    | false => rfl
    | true =>
      exfalso
      rw [hab] at hI
      simp at hI
      obtain ⟨q, hq, hqb, _⟩ := hun
      have h1 : 0 < q.2.borrowed_books.count p.1 := List.count_pos_iff.mpr hqb
      have h2 := count_le_heldCount hq p.1
      omega

/-- Witness for C1: a consistent one-book, one-borrower registry, one
checkout; the checked-out book is held by a unique borrower. -/
theorem reachable_available_iff_uniquely_held_witness :
    (Book.mk "BOOK_0001" "A" "X" "Fiction" false).available = false ↔
      uniquelyHeld
        (runOps wLib [LibOp.checkout "BOOK_0001" "USER_0001"]).borrowers
        (Book.mk "BOOK_0001" "A" "X" "Fiction" false).book_id :=
  reachable_available_iff_uniquely_held wLib [LibOp.checkout "BOOK_0001" "USER_0001"]
    ⟨⟨by decide, by decide, by decide, by decide⟩,
     by
      show ∀ p ∈ wLib.books,
        heldCount wLib.borrowers p.1 = if p.2.available = true then 0 else 1
      decide⟩
    ("BOOK_0001", ⟨"BOOK_0001", "A", "X", "Fiction", false⟩) (by decide)

/-! ### Claim C9: the field-match search -/

theorem itemMatches_cons (r : Item) (key : String) (value : Value)
    (rest : List (String × Value)) :
    ItemMatches r ((key, value) :: rest) ↔
      (∃ v, dictFind r key = some v ∧ ValueMatches v value) ∧ ItemMatches r rest := by
  simp [ItemMatches, List.forall_mem_cons]

theorem matchesItem_iff (r : Item) :
    ∀ criteria, matchesItem r criteria = true ↔ ItemMatches r criteria := by
  intro criteria
  induction criteria with
  | nil => simp [matchesItem, ItemMatches]
  | cons kv rest ih =>
    obtain ⟨key, value⟩ := kv
    rw [itemMatches_cons]
    cases hf : dictFind r key with
    | none =>
      simp only [matchesItem, hf]
      constructor
      · intro h
        cases h
      · rintro ⟨⟨v, hv, _⟩, _⟩
        cases hv
    | some iv =>
      cases iv with
      | str a =>
        cases value with
        | str b =>
          simp only [matchesItem, hf]
          by_cases he : lowerStr a = lowerStr b
          · simp [he, ih, ValueMatches]
          · simp [he, ValueMatches]
        | bool b =>
          simp only [matchesItem, hf]
          simp [ValueMatches, ih]
      | bool ab =>
        cases value with
        | str b =>
          simp only [matchesItem, hf]
          simp [ValueMatches, ih]
        | bool b =>
          simp only [matchesItem, hf]
          by_cases he : ab = b
          · simp [he, ih, ValueMatches]
          · simp [he, ValueMatches]

theorem mem_search_items_iff {items : List Item} {criteria : List (String × Value)}
    {r : Item} :
    r ∈ search_items items criteria ↔ r ∈ items ∧ matchesItem r criteria = true := by
  induction items with
  | nil => simp [search_items]
  | cons it rest ih =>
    simp only [search_items]
    by_cases hm : matchesItem it criteria = true
    · rw [if_pos hm]
      constructor
      · intro hr
        rcases List.mem_cons.mp hr with rfl | h1
        · exact ⟨List.mem_cons_self _ _, hm⟩
        · obtain ⟨h2, h3⟩ := ih.mp h1
          exact ⟨List.mem_cons_of_mem _ h2, h3⟩
      · rintro ⟨hmem, hmatch⟩
        rcases List.mem_cons.mp hmem with rfl | h1
        · exact List.mem_cons_self _ _
        · exact List.mem_cons_of_mem _ (ih.mpr ⟨h1, hmatch⟩)
    · rw [if_neg hm]
      constructor
      · intro hr
        obtain ⟨h1, h2⟩ := ih.mp hr
        exact ⟨List.mem_cons_of_mem _ h1, h2⟩
      · rintro ⟨hmem, hmatch⟩
        rcases List.mem_cons.mp hmem with rfl | h1
        · exact absurd hmatch hm
        · exact ih.mpr ⟨h1, hmatch⟩

/-- C9: the search returns exactly the records for which every constrained
field is present and matches (strings case-insensitively, other values by
equality); a record missing a constrained field does not match; an empty
collection, or one in which nothing matches, yields the empty collection
(the function is total: it never errors). -/
theorem search_items_spec (items : List Item) (criteria : List (String × Value)) :
    (∀ r, r ∈ search_items items criteria ↔ r ∈ items ∧ ItemMatches r criteria) ∧
    (items = [] → search_items items criteria = []) ∧
    ((∀ r ∈ items, ¬ ItemMatches r criteria) → search_items items criteria = []) := by
  refine ⟨?_, ?_, ?_⟩
  · intro r
    rw [mem_search_items_iff, matchesItem_iff]
  · rintro rfl
    rfl
  · intro hnone
    rw [List.eq_nil_iff_forall_not_mem]
    intro r hr
    rw [mem_search_items_iff, matchesItem_iff] at hr
    exact hnone r hr.1 hr.2

/-- Witness for C9: a concrete case-insensitive author search selects the
matching record. -/
theorem search_items_spec_witness :
    [("title", Value.str "Python 101"), ("author", Value.str "Smith")] ∈
      search_items
        [[("title", Value.str "Python 101"), ("author", Value.str "Smith")],
         [("title", Value.str "Java Guide"), ("author", Value.str "Jones")]]
        [("author", Value.str "smith")] :=
  ((search_items_spec
      [[("title", Value.str "Python 101"), ("author", Value.str "Smith")],
       [("title", Value.str "Java Guide"), ("author", Value.str "Jones")]]
      [("author", Value.str "smith")]).1
    [("title", Value.str "Python 101"), ("author", Value.str "Smith")]).mpr
    ⟨by decide, by
      intro kv hkv
      have hk := List.mem_singleton.mp hkv
      subst hk
      exact ⟨Value.str "Smith", by decide,
        show lowerStr "Smith" = lowerStr "smith" by decide⟩⟩

/-! ### Claim C8: ID generation -/

theorem init_le_foldl_max (ns : List Nat) : ∀ a, a ≤ ns.foldl Nat.max a := by
  induction ns with
  | nil => intro a; exact le_refl a
  | cons n rest ih =>
    intro a
    exact le_trans (Nat.le_max_left a n) (ih (Nat.max a n))

theorem mem_le_foldl_max (ns : List Nat) : ∀ a, ∀ x ∈ ns, x ≤ ns.foldl Nat.max a := by
  induction ns with
  | nil =>
    intro a x hx
    cases hx
  | cons n rest ih =>
    intro a x hx
    rcases List.mem_cons.mp hx with rfl | h1
    · exact le_trans (Nat.le_max_right a x) (init_le_foldl_max rest _)
    · exact ih _ x h1

theorem foldl_max_mem (ns : List Nat) :
    ∀ a, ns.foldl Nat.max a = a ∨ ns.foldl Nat.max a ∈ ns := by
  induction ns with
  | nil => intro a; exact Or.inl rfl
  | cons n rest ih =>
    intro a
    rcases ih (Nat.max a n) with h | h
    · rcases Nat.le_total a n with hle | hle
      · right
        have hmax : Nat.max a n = n := Nat.max_eq_right hle
        show rest.foldl Nat.max (Nat.max a n) ∈ n :: rest
        rw [h, hmax]
        exact List.mem_cons_self _ _
      · left
        have hmax : Nat.max a n = a := Nat.max_eq_left hle
        show rest.foldl Nat.max (Nat.max a n) = a
        rw [h, hmax]
    · right
      exact List.mem_cons_of_mem _ h

theorem foldl_max_zero_mem {ns : List Nat} (h : ns ≠ []) : ns.foldl Nat.max 0 ∈ ns := by
  rcases foldl_max_mem ns 0 with h0 | hmem
  · obtain ⟨n, rest, rfl⟩ := List.exists_cons_of_ne_nil h
    have hle : n ≤ (n :: rest).foldl Nat.max 0 :=
      mem_le_foldl_max _ 0 n (List.mem_cons_self _ _)
    rw [h0] at hle
    have hn0 : n = 0 := Nat.le_zero.mp hle
    subst hn0
    rw [h0]
    exact List.mem_cons_self _ _
  · exact hmem

theorem parseSuffixes_isSome {ids : List String}
    (h : ∀ id ∈ ids, (suffixNum id).isSome) : ∃ ns, parseSuffixes ids = some ns := by
  induction ids with
  | nil => exact ⟨[], rfl⟩
  | cons id rest ih =>
    have h1 := h id (List.mem_cons_self _ _)
    cases hs : suffixNum id with
    | none =>
      rw [hs] at h1
      cases h1
    | some n =>
      obtain ⟨ns, hns⟩ := ih (fun i hi => h i (List.mem_cons_of_mem _ hi))
      exact ⟨n :: ns, by simp [parseSuffixes, hs, hns]⟩

theorem parseSuffixes_forward {ids : List String} {ns : List Nat}
    (h : parseSuffixes ids = some ns) :
    ∀ id ∈ ids, ∃ n ∈ ns, suffixNum id = some n := by
  induction ids generalizing ns with
  | nil =>
    intro id hid
    cases hid
  | cons i rest ih =>
    intro id hid
    cases hs : suffixNum i with
    | none => simp [parseSuffixes, hs] at h
    | some n =>
      cases hr : parseSuffixes rest with
      | none => simp [parseSuffixes, hs, hr] at h
      | some ms =>
        simp only [parseSuffixes, hs, hr, Option.some.injEq] at h
        subst h
        rcases List.mem_cons.mp hid with rfl | h1
        · exact ⟨n, List.mem_cons_self _ _, hs⟩
        · obtain ⟨m, hm, hsm⟩ := ih hr id h1
          exact ⟨m, List.mem_cons_of_mem _ hm, hsm⟩

theorem parseSuffixes_backward {ids : List String} {ns : List Nat}
    (h : parseSuffixes ids = some ns) :
    ∀ n ∈ ns, ∃ id ∈ ids, suffixNum id = some n := by
  induction ids generalizing ns with
  | nil =>
    simp only [parseSuffixes, Option.some.injEq] at h
    subst h
    intro n hn
    cases hn
  | cons i rest ih =>
    cases hs : suffixNum i with
    | none => simp [parseSuffixes, hs] at h
    | some m =>
      cases hr : parseSuffixes rest with
      | none => simp [parseSuffixes, hs, hr] at h
      | some ms =>
        simp only [parseSuffixes, hs, hr, Option.some.injEq] at h
        subst h
        intro n hn
        rcases List.mem_cons.mp hn with rfl | h1
        · exact ⟨i, List.mem_cons_self _ _, hs⟩
        · obtain ⟨id, hid, hsid⟩ := ih hr n h1
          exact ⟨id, List.mem_cons_of_mem _ hid, hsid⟩

/-- C8 counterexample: with one existing ID of a different prefix and no
existing ID of prefix `BOOK`, the claim requires `BOOK_0001`, but the code
also consults the foreign ID's suffix and produces `BOOK_0006`. -/
theorem generate_id_prefix_counterexample :
    generate_id "BOOK" ["USER_0005"] = some "BOOK_0006" ∧
    generate_id_claim "BOOK" ["USER_0005"] = some "BOOK_0001" ∧
    ("BOOK_0006" : String) ≠ "BOOK_0001" :=
  ⟨by decide, by decide, by decide⟩

/-- C8 (amended): `generate_id` is a pure function; it returns
`PREFIX_0001` when the list of existing IDs is empty, and otherwise an ID
whose zero-padded numeric suffix is one more than the maximum numeric
suffix among all the given IDs, whatever their prefix. -/
theorem generate_id_spec_amended (pre : String) (ids : List String) :
    (ids = [] → generate_id pre ids = some (pre ++ "_0001")) ∧
    (ids ≠ [] → (∀ id ∈ ids, (suffixNum id).isSome) →
      ∃ m, generate_id pre ids = some (pre ++ "_" ++ pad4 (m + 1)) ∧
        (∃ id ∈ ids, suffixNum id = some m) ∧
        (∀ id ∈ ids, ∀ n, suffixNum id = some n → n ≤ m)) := by
  constructor
  · rintro rfl
    rfl
  · intro hne hsome
    obtain ⟨ns, hns⟩ := parseSuffixes_isSome hsome
    have hns_ne : ns ≠ [] := by
      intro h0
      subst h0
      obtain ⟨i, rest, rfl⟩ := List.exists_cons_of_ne_nil hne
      obtain ⟨n, hn, _⟩ := parseSuffixes_forward hns i (List.mem_cons_self _ _)
      cases hn
    refine ⟨ns.foldl Nat.max 0, ?_, ?_, ?_⟩
    · obtain ⟨i, rest, rfl⟩ := List.exists_cons_of_ne_nil hne
      simp only [generate_id, hns]
    · obtain ⟨id, hid, hsid⟩ := parseSuffixes_backward hns _ (foldl_max_zero_mem hns_ne)
      exact ⟨id, hid, hsid⟩
    · intro id hid n hsn
      obtain ⟨m', hm', hsm'⟩ := parseSuffixes_forward hns id hid
      have he : n = m' := by
        rw [hsn] at hsm'
        injection hsm'
      rw [he]
      exact mem_le_foldl_max ns 0 m' hm'

/-- Witness for C8 (amended) at two concrete inputs. -/
theorem generate_id_spec_amended_witness :
    generate_id "USER" [] = some ("USER" ++ "_0001") ∧
    ∃ m, generate_id "BOOK" ["BOOK_0001", "BOOK_0002"] =
        some ("BOOK" ++ "_" ++ pad4 (m + 1)) ∧
      (∃ id ∈ ["BOOK_0001", "BOOK_0002"], suffixNum id = some m) ∧
      (∀ id ∈ ["BOOK_0001", "BOOK_0002"], ∀ n, suffixNum id = some n → n ≤ m) :=
  ⟨(generate_id_spec_amended "USER" []).1 rfl,
   (generate_id_spec_amended "BOOK" ["BOOK_0001", "BOOK_0002"]).2
     (by decide) (by decide)⟩
